import Mathlib

/-!
# Verification of the component-tree mirroring and selection engine

Shallow embedding of `packages/app-frontend/src/features/components/index.js`:
the tree mirror (`rootInstances`, `componentsMap`, `componentsParent`), the
expand-state map, the selection state, the request functions
(`requestComponentTree`, `loadComponent`, `toggleExpand`) and the two bridge
event handlers (`TO_FRONT_COMPONENT_TREE`, `TO_FRONT_COMPONENT_SELECTED_DATA`).

JavaScript objects used as string-keyed dictionaries are modelled as
association lists where the most recent binding wins (`mlookup`/`minsert`).
In-place mutation of a stored node (the source mutates the object held in
`componentsMap`, which is aliased from the parent `children` arrays reachable
from `rootInstances`) is modelled by updating the map entry and substituting
the new value at the position of that id inside the root forest
(`substForest`).  Outbound bridge commands are returned as an explicit list.
A JavaScript exception escaping a handler (for example `parse` throwing on a
malformed payload, or `Vue.set` being applied to an `undefined` component) is
modelled by a `threw` flag on the handler result; mutations performed before
the throw persist, exactly as in the source.
-/

namespace VueDT

/-- Lookup in a JavaScript-object-as-map: the most recent assignment for a
key wins. -/
def mlookup {α : Type} : List (String × α) → String → Option α
  | [], _ => none
  | (k, v) :: rest, x => if k = x then some v else mlookup rest x

/-- Property assignment on a JavaScript object map: the new binding shadows
any older one. -/
def minsert {α : Type} (k : String) (v : α) (m : List (String × α)) :
    List (String × α) :=
  (k, v) :: m

/-- Models `String.prototype.endsWith`, evaluated on the character list so that it
reduces inside the kernel (the built-in `String.endsWith` is byte-position
based and does not reduce). -/
def strEndsWith (s suffix : String) : Bool :=
  suffix.data.isSuffixOf s.data

/-- A component-tree node as received over the bridge and stored in
`componentsMap`: an `id`, the `hasChildren` flag, the embedded ordered
`children` list, and one opaque metadata field (`name`) standing for all the
fields the engine passes through verbatim. -/
inductive Node : Type where
  | mk : String → Bool → List Node → String → Node

def Node.id : Node → String
  | .mk i _ _ _ => i

def Node.hasChildren : Node → Bool
  | .mk _ h _ _ => h

def Node.children : Node → List Node
  | .mk _ _ cs _ => cs

def Node.name : Node → String
  | .mk _ _ _ m => m

/-- Outbound bridge commands sent by this module. -/
inductive Cmd : Type where
  | treeFetch (instanceId : String) (filter : String)
  | detailFetch (instanceId : String)
deriving DecidableEq

/-- The module-level mutable state of `features/components/index.js`
(lines 17-28 of the source). -/
structure CompState where
  rootInstances : List Node
  componentsMap : List (String × Node)
  componentsParent : List (String × String)
  treeFilter : String
  selectedComponentId : Option String
  selectedComponentData : Option Nat
  selectedComponentPendingId : Option String
  lastSelectedComponentId : Option String
  expandedMap : List (String × Bool)
  resetComponentsQueued : Bool

/-- The state right after module initialisation. -/
def initState : CompState :=
  { rootInstances := []
    componentsMap := []
    componentsParent := []
    treeFilter := ""
    selectedComponentId := none
    selectedComponentData := none
    selectedComponentPendingId := none
    lastSelectedComponentId := none
    expandedMap := []
    resetComponentsQueued := false }

/-- JavaScript truthiness of a nullable string (null and the empty string
are falsy). -/
def optTruthy : Option String → Bool
  | none => false
  | some i => if i = "" then false else true

/-- Function `resetComponents`: clears the reset flag, the root list and both
tables. -/
def resetComponents (s : CompState) : CompState :=
  { s with
    resetComponentsQueued := false
    rootInstances := []
    componentsMap := []
    componentsParent := [] }

/-- Function `requestComponentTree(instanceId)`: a falsy argument is replaced by the
sentinel `_root`; a root request queues the deferred reset; the tree-fetch
command always carries the current filter string. -/
def requestComponentTree (instanceId0 : Option String) (s : CompState) :
    CompState × List Cmd :=
  let instanceId :=
    match instanceId0 with
    | none => "_root"
    | some i => if i = "" then "_root" else i
  let s1 :=
    if instanceId = "_root" then { s with resetComponentsQueued := true } else s
  (s1, [Cmd.treeFetch instanceId s.treeFilter])

mutual
/-- Function `restoreChildrenFromComponentsMap(data)`: if the incoming node is known
and claims `hasChildren`, an empty incoming `children` list is replaced by
the previously stored children; otherwise the walk recurses into the
incoming children. -/
def restoreChildrenFromComponentsMap (cm : List (String × Node)) :
    Node → Node
  | .mk i h cs m =>
    match mlookup cm i with
    | some inst =>
      if h then
        if cs.isEmpty && !inst.children.isEmpty then .mk i h inst.children m
        else .mk i h (restoreChildrenList cm cs) m
      else .mk i h cs m
    | none => .mk i h cs m

/-- The `for (const child of data.children)` loop inside
`restoreChildrenFromComponentsMap`. -/
def restoreChildrenList (cm : List (String × Node)) : List Node → List Node
  | [] => []
  | c :: rest =>
    restoreChildrenFromComponentsMap cm c :: restoreChildrenList cm rest
end

/-- Function `updateComponentsMapData(data)`: looks the incoming id up in
`componentsMap` and copies every field of the incoming node onto the stored
component (`Vue.set(component, key, data[key])` for each key).  When the id
has no entry the source applies `Vue.set` to `undefined`, which throws;
that failure is `none` here.  Since every field of the incoming node is
copied, the stored value becomes the incoming value. -/
def updateComponentsMapData (cm : List (String × Node)) (data : Node) :
    Option Node :=
  match mlookup cm data.id with
  | none => none
  | some _ => some (Node.mk data.id data.hasChildren data.children data.name)

mutual
/-- Function `addToComponentsMap(instance)`: stores the node under its id, then for
each embedded child records the parent link and recurses. -/
def addToComponentsMap : Node → CompState → CompState
  | .mk i h cs m, s =>
    addChildrenToComponentsMap cs i
      { s with componentsMap := minsert i (.mk i h cs m) s.componentsMap }

/-- The `instance.children.forEach` loop inside `addToComponentsMap`. -/
def addChildrenToComponentsMap : List Node → String → CompState → CompState
  | [], _, s => s
  | c :: rest, pid, s =>
    addChildrenToComponentsMap rest pid
      (addToComponentsMap c
        { s with componentsParent := minsert c.id pid s.componentsParent })
end

mutual
/-- Substitutes the node carrying id `x` inside a forest by `v`: the purely
functional rendering of mutating the stored object aliased from the root
forest. -/
def substForest (x : String) (v : Node) : List Node → List Node
  | [] => []
  | n :: rest => substNode x v n :: substForest x v rest

/-- Node-level case of `substForest`. -/
def substNode (x : String) (v : Node) : Node → Node
  | .mk i h cs m => if i = x then v else .mk i h (substForest x v cs) m
end

/-- The serialized `treeData` payload: either malformed (then `parse`
throws) or a list of nodes. -/
inductive TreePayload : Type where
  | malformed
  | ok (data : List Node)

/-- The `TO_FRONT_COMPONENT_TREE` event payload. -/
structure TreeMsg where
  instanceId : String
  treeData : Option TreePayload
  notFound : Bool

/-- The result of running a bridge event handler: the new state, the
commands sent, the errors surfaced via `putError`, and whether a JavaScript
exception escaped the handler. -/
structure HandlerResult where
  state : CompState
  sent : List Cmd
  errors : List String
  threw : Bool

/-- The `for (const item of data)` loop of the known-target branch of the
tree handler: restore lazily kept children, merge the fields onto the
stored component (in place, hence the substitution into the root forest),
then register the subtree.  A missing top-level id aborts the loop with an
exception. -/
def applyTreeItems : List Node → CompState → CompState × Bool
  | [], s => (s, false)
  | item :: rest, s =>
    let item1 := restoreChildrenFromComponentsMap s.componentsMap item
    match updateComponentsMapData s.componentsMap item1 with
    | none => (s, true)
    | some component =>
      let s1 :=
        { s with
          rootInstances := substForest component.id component s.rootInstances }
      applyTreeItems rest (addToComponentsMap component s1)

/-- The `data.forEach(i => addToComponentsMap(i))` loop of the root-level
branch. -/
def addRootsToComponentsMap : List Node → CompState → CompState
  | [], s => s
  | n :: rest, s => addRootsToComponentsMap rest (addToComponentsMap n s)

/-- Function `loadComponent(id)`: no-op on a falsy id or when the id already equals
the pending id; otherwise records the id as last-selected and pending and
sends one detail-fetch command. -/
def loadComponent (id0 : Option String) (s : CompState) :
    CompState × List Cmd :=
  match id0 with
  | none => (s, [])
  | some i =>
    if i = "" ∨ s.selectedComponentPendingId = some i then (s, [])
    else
      ({ s with
          lastSelectedComponentId := some i
          selectedComponentPendingId := some i },
        [Cmd.detailFetch i])

/-- The `TO_FRONT_COMPONENT_TREE` handler. -/
def handleComponentTree (msg : TreeMsg) (s0 : CompState) : HandlerResult :=
  let isRoot := strEndsWith msg.instanceId "root"
  let s := if s0.resetComponentsQueued then resetComponents s0 else s0
  match msg.treeData with
  | none =>
    if isRoot && !msg.notFound then
      ⟨s, [], ["Component tree not supported"], false⟩
    else ⟨s, [], [], false⟩
  | some TreePayload.malformed => ⟨s, [], [], true⟩
  | some (TreePayload.ok data) =>
    let r :=
      match mlookup s.componentsMap msg.instanceId with
      | some _ => applyTreeItems data s
      | none => (addRootsToComponentsMap data { s with rootInstances := data }, false)
    match r with
    | (s3, true) => ⟨s3, [], [], true⟩
    | (s3, false) =>
      if isRoot && optTruthy s3.selectedComponentId
          && !s3.selectedComponentData.isSome
          && !(optTruthy s3.selectedComponentPendingId) then
        let r2 := loadComponent s3.selectedComponentId s3
        ⟨r2.1, r2.2, [], false⟩
      else ⟨s3, [], [], false⟩

/-- Function `setComponentOpen(id, isOpen)`. -/
def setComponentOpen (id : String) (isOpen : Bool) (s : CompState) :
    CompState :=
  { s with expandedMap := minsert id isOpen s.expandedMap }

/-- The `isExpanded` computed property: `!!expandedMap.value[id]`. -/
def isExpanded (s : CompState) (id : String) : Bool :=
  match mlookup s.expandedMap id with
  | some b => b
  | none => false

/-- Function `toggleExpand(load)` for the component held by the composable. -/
def toggleExpand (inst : Node) (load : Bool) (s : CompState) :
    CompState × List Cmd :=
  if !inst.hasChildren then (s, [])
  else
    let s1 := setComponentOpen inst.id (!isExpanded s inst.id) s
    if load then requestComponentTree (some inst.id) s1
    else (s1, [])

/-- The `TO_FRONT_COMPONENT_SELECTED_DATA` event payload; the detail data
blob is opaque to the engine and modelled by a number. -/
structure DetailMsg where
  instanceId : String
  data : Nat
  parentIds : Option (List String)

/-- The `parentIds.reverse().forEach` loop of the detail handler: skip ids
with the root suffix, mark the rest expanded and request their subtrees. -/
def processParentIds : List String → CompState → CompState × List Cmd
  | [], s => (s, [])
  | id :: rest, s =>
    if strEndsWith id "root" then processParentIds rest s
    else
      let s1 := setComponentOpen id true s
      let r1 := requestComponentTree (some id) s1
      let r2 := processParentIds rest r1.1
      (r2.1, r1.2 ++ r2.2)

/-- The two guarded selection updates at the start of the
`TO_FRONT_COMPONENT_SELECTED_DATA` handler: overwrite the snapshot only
when the incoming id equals the selected id, clear the pending id only
when the incoming id equals the pending id. -/
def detailSelUpdate (msg : DetailMsg) (s : CompState) : CompState :=
  let s1 :=
    if s.selectedComponentId = some msg.instanceId then
      { s with selectedComponentData := some msg.data }
    else s
  if s1.selectedComponentPendingId = some msg.instanceId then
    { s1 with selectedComponentPendingId := none }
  else s1

/-- The `TO_FRONT_COMPONENT_SELECTED_DATA` handler. -/
def handleSelectedData (msg : DetailMsg) (s : CompState) :
    CompState × List Cmd :=
  let s2 := detailSelUpdate msg s
  match msg.parentIds with
  | none => (s2, [])
  | some pids => processParentIds pids.reverse s2

/-! ## Small structural lemmas -/

/-- The first component of `requestComponentTree` only ever touches the
reset flag. -/
theorem requestComponentTree_fst (o : Option String) (s : CompState) :
    (requestComponentTree o s).1 = s ∨
      (requestComponentTree o s).1 = { s with resetComponentsQueued := true } := by
  unfold requestComponentTree
  dsimp only
  split
  · exact Or.inr rfl
  · exact Or.inl rfl

theorem requestComponentTree_selection (o : Option String) (s : CompState) :
    (requestComponentTree o s).1.selectedComponentData = s.selectedComponentData
    ∧ (requestComponentTree o s).1.selectedComponentPendingId
        = s.selectedComponentPendingId
    ∧ (requestComponentTree o s).1.selectedComponentId = s.selectedComponentId
    ∧ (requestComponentTree o s).1.treeFilter = s.treeFilter
    ∧ (requestComponentTree o s).1.componentsMap = s.componentsMap
    ∧ (requestComponentTree o s).1.expandedMap = s.expandedMap := by
  rcases requestComponentTree_fst o s with h | h <;> rw [h]
  <;> exact ⟨rfl, rfl, rfl, rfl, rfl, rfl⟩

theorem processParentIds_selection (l : List String) (s : CompState) :
    (processParentIds l s).1.selectedComponentData = s.selectedComponentData
    ∧ (processParentIds l s).1.selectedComponentPendingId
        = s.selectedComponentPendingId
    ∧ (processParentIds l s).1.selectedComponentId = s.selectedComponentId
    ∧ (processParentIds l s).1.treeFilter = s.treeFilter
    ∧ (processParentIds l s).1.componentsMap = s.componentsMap := by
  induction l generalizing s with
  | nil => exact ⟨rfl, rfl, rfl, rfl, rfl⟩
  | cons id rest ih =>
    by_cases hr : strEndsWith id "root" = true
    · simpa [processParentIds, hr] using ih s
    · have hr2 : strEndsWith id "root" = false := by
        cases hv : strEndsWith id "root" with
        | false => rfl
        | true => exact absurd hv hr
      simp only [processParentIds, hr2, Bool.false_eq_true, if_false]
      have h1 := requestComponentTree_selection (some id)
        (setComponentOpen id true s)
      have h2 := ih (requestComponentTree (some id) (setComponentOpen id true s)).1
      simp only [setComponentOpen] at h1
      exact ⟨h2.1.trans h1.1, h2.2.1.trans h1.2.1, h2.2.2.1.trans h1.2.2.1,
        h2.2.2.2.1.trans h1.2.2.2.1, h2.2.2.2.2.trans h1.2.2.2.2.1⟩

/-! ## C2: stale detail responses never overwrite the snapshot -/

/-- C2: for every detail-data response, the snapshot is overwritten exactly
when the incoming id equals the currently selected id, and the pending id
is cleared exactly when the incoming id equals the pending id, each
independently of the other. -/
theorem C2_detail_response_guard (msg : DetailMsg) (s : CompState) :
    (handleSelectedData msg s).1.selectedComponentData
      = (if s.selectedComponentId = some msg.instanceId then some msg.data
         else s.selectedComponentData)
    ∧ (handleSelectedData msg s).1.selectedComponentPendingId
      = (if s.selectedComponentPendingId = some msg.instanceId then none
         else s.selectedComponentPendingId) := by
  unfold handleSelectedData detailSelUpdate
  dsimp only
  by_cases h1 : s.selectedComponentId = some msg.instanceId
  <;> by_cases h2 : s.selectedComponentPendingId = some msg.instanceId
  <;> simp only [h1, h2, if_true, if_false, ite_true, ite_false]
  <;> cases hp : msg.parentIds
  <;> simp [processParentIds_selection, h1, h2]

/-! ## C3: loadComponent dedup -/

/-- C3: `loadComponent` is a no-op on a falsy id or when the id equals the
pending id; otherwise it records the id as pending and last-selected and
sends exactly one detail-fetch command, so a second identical call before
any response is a no-op. -/
theorem C3_load_detail_dedup (s : CompState) :
    (loadComponent none s = (s, []))
    ∧ (loadComponent (some "") s = (s, []))
    ∧ (∀ i : String, s.selectedComponentPendingId = some i →
        loadComponent (some i) s = (s, []))
    ∧ (∀ i : String, i ≠ "" → s.selectedComponentPendingId ≠ some i →
        (loadComponent (some i) s).2 = [Cmd.detailFetch i]
        ∧ (loadComponent (some i) s).1.selectedComponentPendingId = some i
        ∧ (loadComponent (some i) s).1.lastSelectedComponentId = some i
        ∧ loadComponent (some i) (loadComponent (some i) s).1
            = ((loadComponent (some i) s).1, [])) := by
  refine ⟨rfl, by simp [loadComponent], ?_, ?_⟩
  · intro i hp
    simp [loadComponent, hp]
  · intro i hne hp
    have hcond : ¬(i = "" ∨ s.selectedComponentPendingId = some i) := by
      rintro (h | h)
      · exact hne h
      · exact hp h
    refine ⟨?_, ?_, ?_, ?_⟩
    · simp [loadComponent, hcond]
    · simp [loadComponent, hcond]
    · simp [loadComponent, hcond]
    · simp [loadComponent, hcond]

/-- Witness for C3 at a concrete state and id. -/
theorem C3_load_detail_dedup_witness :
    (loadComponent (some "2:1") initState).2 = [Cmd.detailFetch "2:1"]
    ∧ loadComponent (some "2:1") (loadComponent (some "2:1") initState).1
        = ((loadComponent (some "2:1") initState).1, []) := by
  have h := (C3_load_detail_dedup initState).2.2.2 "2:1"
    (by decide) (by simp [initState])
  exact ⟨h.1, h.2.2.2⟩

/-! ## C4: the reset is deferred to the next tree message -/

/-- C4: requesting the root tree only queues the reset flag and sends one
tree-fetch command carrying the current filter, leaving all three mirror
tables untouched; the actual clearing of the tables and of the flag happens
at the start of the next tree-data message, before any merge. -/
theorem C4_reset_deferred (s : CompState) (msg : TreeMsg)
    (hq : s.resetComponentsQueued = true) :
    ((requestComponentTree none s).1.rootInstances = s.rootInstances
      ∧ (requestComponentTree none s).1.componentsMap = s.componentsMap
      ∧ (requestComponentTree none s).1.componentsParent = s.componentsParent
      ∧ (requestComponentTree none s).1.resetComponentsQueued = true
      ∧ (requestComponentTree none s).2 = [Cmd.treeFetch "_root" s.treeFilter])
    ∧ handleComponentTree msg s = handleComponentTree msg (resetComponents s)
    ∧ (resetComponents s).rootInstances = []
    ∧ (resetComponents s).componentsMap = []
    ∧ (resetComponents s).componentsParent = []
    ∧ (resetComponents s).resetComponentsQueued = false := by
  refine ⟨⟨rfl, rfl, rfl, rfl, rfl⟩, ?_, rfl, rfl, rfl, rfl⟩
  unfold handleComponentTree
  rw [hq]
  simp [resetComponents]

/-- Witness for C4 at a concrete state. -/
theorem C4_reset_deferred_witness :
    ((requestComponentTree none { initState with resetComponentsQueued := true }).2
        = [Cmd.treeFetch "_root" ""])
    ∧ handleComponentTree ⟨"_root", none, false⟩
          { initState with resetComponentsQueued := true }
        = handleComponentTree ⟨"_root", none, false⟩
          (resetComponents { initState with resetComponentsQueued := true }) := by
  have h := C4_reset_deferred { initState with resetComponentsQueued := true }
    ⟨"_root", none, false⟩ rfl
  exact ⟨h.1.2.2.2.2, h.2.1⟩

/-! ## C5: polarity of the not-supported error -/

/-- C5 (amended): when a tree-data message carries no tree data, the
not-supported error is surfaced exactly when the target is a root and the
`notFound` signal is absent; in every prior state no command is sent and
nothing changes beyond the pending reset: without a queued reset the
state is untouched, with a queued reset the state is exactly the reset
state. -/
theorem C5_not_supported_polarity (s : CompState) (iid : String) (nf : Bool) :
    (handleComponentTree ⟨iid, none, nf⟩ s).errors
      = (if strEndsWith iid "root" && !nf then ["Component tree not supported"]
         else [])
    ∧ (handleComponentTree ⟨iid, none, nf⟩ s).sent = []
    ∧ (s.resetComponentsQueued = false →
        (handleComponentTree ⟨iid, none, nf⟩ s).state = s)
    ∧ (s.resetComponentsQueued = true →
        (handleComponentTree ⟨iid, none, nf⟩ s).state = resetComponents s) := by
  unfold handleComponentTree
  cases hq : s.resetComponentsQueued
  · cases h : (strEndsWith iid "root" && !nf)
    · simp [h]
    · simp [h]
  · cases h : (strEndsWith iid "root" && !nf)
    · simp [h]
    · simp [h]

/-- Witness for C5 (amended) at concrete states: a root message without
data and without the not-found signal surfaces the error, and with a
queued reset the state after the message is exactly the reset state. -/
theorem C5_not_supported_polarity_witness :
    (handleComponentTree ⟨"_root", none, false⟩ initState).errors
      = ["Component tree not supported"]
    ∧ (handleComponentTree ⟨"_root", none, false⟩
          { initState with resetComponentsQueued := true }).state
        = resetComponents { initState with resetComponentsQueued := true } := by
  constructor
  · have h := C5_not_supported_polarity initState "_root" false
    simpa using h.1
  · exact (C5_not_supported_polarity
      { initState with resetComponentsQueued := true } "_root" false).2.2.2 rfl

/-- C5 counterexample: a root tree-data message with no data and with the
`notFound` signal present surfaces nothing, contradicting the claim that
the error is surfaced when `notFound` accompanies the message. -/
theorem C5_counterexample :
    (handleComponentTree ⟨"_root", none, true⟩ initState).errors = []
    ∧ (handleComponentTree ⟨"_root", none, true⟩ initState).state = initState := by
  exact ⟨rfl, rfl⟩

/-! ## C6: toggleExpand -/

/-- C6 (amended): `toggleExpand` is a no-op when the node has
`hasChildren = false`; otherwise it flips the tri-state (absent counts as
collapsed) and sends the tree-fetch command exactly when `load` is
requested, regardless of whether the new state is expanded or collapsed. -/
theorem C6_toggle_expand (inst : Node) (load : Bool) (s : CompState)
    (hid1 : inst.id ≠ "") (hid2 : inst.id ≠ "_root") :
    (inst.hasChildren = false → toggleExpand inst load s = (s, []))
    ∧ (inst.hasChildren = true →
        (toggleExpand inst load s).1.expandedMap
          = minsert inst.id (!isExpanded s inst.id) s.expandedMap
        ∧ isExpanded (toggleExpand inst load s).1 inst.id
            = !isExpanded s inst.id
        ∧ (toggleExpand inst load s).2
            = (if load then [Cmd.treeFetch inst.id s.treeFilter] else [])) := by
  constructor
  · intro h
    simp [toggleExpand, h]
  · intro h
    have hflip :
        (toggleExpand inst load s).1
          = (if load then
              (requestComponentTree (some inst.id)
                (setComponentOpen inst.id (!isExpanded s inst.id) s)).1
            else setComponentOpen inst.id (!isExpanded s inst.id) s) := by
      cases load <;> simp [toggleExpand, h]
    refine ⟨?_, ?_, ?_⟩
    · rw [hflip]
      cases load with
      | false => simp [setComponentOpen]
      | true =>
        simp only [if_true]
        have := (requestComponentTree_selection (some inst.id)
          (setComponentOpen inst.id (!isExpanded s inst.id) s)).2.2.2.2.2
        rw [this]
        rfl
    · rw [hflip]
      cases load with
      | false => simp [setComponentOpen, isExpanded, mlookup]
      | true =>
        simp only [if_true]
        generalize (!isExpanded s inst.id) = b
        have hm := (requestComponentTree_selection (some inst.id)
          (setComponentOpen inst.id b s)).2.2.2.2.2
        unfold isExpanded
        rw [hm]
        simp [setComponentOpen, mlookup]
    · cases load with
      | false => simp [toggleExpand, h]
      | true =>
        simp only [toggleExpand, h, Bool.not_true, Bool.false_eq_true,
          if_false, if_true]
        simp [requestComponentTree, setComponentOpen, hid1, hid2]

/-- Witness for C6 (amended) at a concrete collapsed node: toggling with
load expands it and sends one fetch. -/
theorem C6_toggle_expand_witness :
    (toggleExpand (Node.mk "2:1" true [] "") true initState).1.expandedMap
      = [("2:1", true)]
    ∧ (toggleExpand (Node.mk "2:1" true [] "") true initState).2
      = [Cmd.treeFetch "2:1" ""] := by
  have h := (C6_toggle_expand (Node.mk "2:1" true [] "") true initState
    (by decide) (by decide)).2 rfl
  refine ⟨?_, ?_⟩
  · rw [h.1]
    rfl
  · rw [h.2.2]
    rfl

/-- C6 counterexample: toggling an expanded node with `load = true` moves
it to the collapsed state and nevertheless sends a tree-fetch command,
contradicting the claim that a command is sent only when the resulting
state is expanded. -/
theorem C6_counterexample :
    isExpanded
        (toggleExpand (Node.mk "2:1" true [] "") true
          { initState with expandedMap := [("2:1", true)] }).1 "2:1" = false
    ∧ (toggleExpand (Node.mk "2:1" true [] "") true
          { initState with expandedMap := [("2:1", true)] }).2
        = [Cmd.treeFetch "2:1" ""] := by
  exact ⟨rfl, rfl⟩

/-! ## C7: parse failure and the queued reset -/

/-- C7 (amended): a malformed tree payload makes the handler throw with no
merge applied; when no reset was queued the three mirror tables are left
exactly as they were, but when a reset was queued the tables have already
been cleared by the deferred reset, which runs before the parse. -/
theorem C7_parse_failure (s : CompState) (iid : String) (nf : Bool) :
    (s.resetComponentsQueued = false →
      (handleComponentTree ⟨iid, some TreePayload.malformed, nf⟩ s).state = s
      ∧ (handleComponentTree ⟨iid, some TreePayload.malformed, nf⟩ s).threw
          = true)
    ∧ (s.resetComponentsQueued = true →
      (handleComponentTree ⟨iid, some TreePayload.malformed, nf⟩ s).state
          = resetComponents s
      ∧ (handleComponentTree ⟨iid, some TreePayload.malformed, nf⟩ s).threw
          = true) := by
  constructor <;> intro hq <;> unfold handleComponentTree <;> rw [hq]
  <;> exact ⟨rfl, rfl⟩

/-- Witness for C7 (amended) at a concrete state with no reset queued. -/
theorem C7_parse_failure_witness :
    (handleComponentTree ⟨"2:1", some TreePayload.malformed, false⟩
        initState).state = initState
    ∧ (handleComponentTree ⟨"2:1", some TreePayload.malformed, false⟩
        initState).threw = true :=
  (C7_parse_failure initState "2:1" false).1 rfl

/-- C7 counterexample: with a reset queued and a non-empty mirror, a
malformed payload does not leave the tables as they were before the
message: the deferred reset has already cleared them. -/
theorem C7_counterexample :
    (handleComponentTree ⟨"2:1", some TreePayload.malformed, false⟩
        { initState with
          resetComponentsQueued := true
          rootInstances := [Node.mk "r1" false [] ""]
          componentsMap := [("r1", Node.mk "r1" false [] "")]
          componentsParent := [("a1", "r1")] }).state.componentsMap.length = 0
    ∧ (handleComponentTree ⟨"2:1", some TreePayload.malformed, false⟩
        { initState with
          resetComponentsQueued := true
          rootInstances := [Node.mk "r1" false [] ""]
          componentsMap := [("r1", Node.mk "r1" false [] "")]
          componentsParent := [("a1", "r1")] }).state.componentsParent.length = 0
    ∧ ({ initState with
          resetComponentsQueued := true
          rootInstances := [Node.mk "r1" false [] ""]
          componentsMap := [("r1", Node.mk "r1" false [] "")]
          componentsParent := [("a1", "r1")] } : CompState).componentsMap.length
        = 1 :=
  ⟨rfl, rfl, rfl⟩

/-! ## C10: known-target merges require known top-level ids -/

/-- The restore pass never changes the id of the incoming node. -/
theorem restore_id (cm : List (String × Node)) (n : Node) :
    (restoreChildrenFromComponentsMap cm n).id = n.id := by
  cases n with
  | mk i h cs m =>
    unfold restoreChildrenFromComponentsMap
    cases mlookup cm i with
    | none => rfl
    | some inst =>
      dsimp only
      cases h with
      | false => rfl
      | true =>
        rw [if_pos rfl]
        split <;> rfl

/-- C10: when a tree update is applied for a target already present in
`componentsMap`, a top-level incoming node whose id has no entry makes the
merge throw (the field copy dereferences a missing component) instead of
inserting the node; the state is left as it was. -/
theorem C10_unknown_top_level (s : CompState) (iid : String) (item : Node)
    (rest : List Node) (nf : Bool)
    (hq : s.resetComponentsQueued = false)
    (hknown : (mlookup s.componentsMap iid).isSome = true)
    (hmiss : mlookup s.componentsMap item.id = none) :
    (handleComponentTree ⟨iid, some (TreePayload.ok (item :: rest)), nf⟩
        s).threw = true
    ∧ (handleComponentTree ⟨iid, some (TreePayload.ok (item :: rest)), nf⟩
        s).state = s
    ∧ mlookup (handleComponentTree
        ⟨iid, some (TreePayload.ok (item :: rest)), nf⟩ s).state.componentsMap
        item.id = none := by
  obtain ⟨v, hv⟩ := Option.isSome_iff_exists.mp hknown
  have happly : applyTreeItems (item :: rest) s = (s, true) := by
    unfold applyTreeItems updateComponentsMapData
    simp only [restore_id, hmiss]
  unfold handleComponentTree
  rw [hq]
  simp only [Bool.false_eq_true, if_false, hv, happly]
  simp [hmiss]

/-- Witness for C10 at a concrete state. -/
theorem C10_unknown_top_level_witness :
    (handleComponentTree
        ⟨"t1", some (TreePayload.ok [Node.mk "u1" false [] ""]), false⟩
        { initState with
          componentsMap := [("t1", Node.mk "t1" true [] "")] }).threw = true
    ∧ mlookup (handleComponentTree
        ⟨"t1", some (TreePayload.ok [Node.mk "u1" false [] ""]), false⟩
        { initState with
          componentsMap := [("t1", Node.mk "t1" true [] "")] }).state.componentsMap
        "u1" = none := by
  have h := C10_unknown_top_level
    { initState with componentsMap := [("t1", Node.mk "t1" true [] "")] }
    "t1" (Node.mk "u1" false [] "") [] false rfl rfl rfl
  exact ⟨h.1, h.2.2⟩

/-! ## C9: ancestor expansion on detail responses -/

theorem mlookup_minsert_self {α : Type} (k : String) (v : α)
    (m : List (String × α)) : mlookup (minsert k v m) k = some v := by
  unfold minsert mlookup
  rw [if_pos rfl]

theorem mlookup_minsert_true (em : List (String × Bool)) (j id : String)
    (h : mlookup em id = some true) :
    mlookup (minsert j true em) id = some true := by
  unfold minsert mlookup
  split
  · rfl
  · exact h

/-- The tree-fetch command sent for a non-empty explicit id. -/
theorem requestComponentTree_sent (i : String) (s : CompState) (hne : i ≠ "") :
    (requestComponentTree (some i) s).2 = [Cmd.treeFetch i s.treeFilter] := by
  unfold requestComponentTree
  simp [hne]

theorem detailSelUpdate_fields (msg : DetailMsg) (s : CompState) :
    (detailSelUpdate msg s).expandedMap = s.expandedMap
    ∧ (detailSelUpdate msg s).treeFilter = s.treeFilter := by
  unfold detailSelUpdate
  dsimp only
  split <;> split <;> exact ⟨rfl, rfl⟩

/-- The commands produced by the parent-id walk: one tree-fetch per id
without the root suffix, in walk order, each carrying the current filter. -/
theorem processParentIds_sent (l : List String) (s : CompState)
    (hne : "" ∉ l) :
    (processParentIds l s).2
      = (l.filter fun i => !(strEndsWith i "root")).map
          (fun i => Cmd.treeFetch i s.treeFilter) := by
  induction l generalizing s with
  | nil => rfl
  | cons id rest ih =>
    have hid : id ≠ "" := fun h => hne (h ▸ List.mem_cons_self id rest)
    have hrest : "" ∉ rest := fun h => hne (List.mem_cons_of_mem _ h)
    cases hr : strEndsWith id "root" with
    | true =>
      simp only [processParentIds, hr, if_true, List.filter_cons, Bool.not_true,
        Bool.false_eq_true, ite_false]
      exact ih s hrest
    | false =>
      simp only [processParentIds, hr, Bool.false_eq_true, if_false,
        List.filter_cons, Bool.not_false, ite_true, List.map_cons]
      have hsent := requestComponentTree_sent id
        (setComponentOpen id true s) (by exact hid)
      have hfil := (requestComponentTree_selection (some id)
        (setComponentOpen id true s)).2.2.2.1
      rw [hsent, ih _ hrest, hfil]
      rfl

/-- A tri-state entry already set to expanded stays expanded through the
parent-id walk. -/
theorem processParentIds_keeps_true (l : List String) (s : CompState)
    (id : String) (h : mlookup s.expandedMap id = some true) :
    mlookup (processParentIds l s).1.expandedMap id = some true := by
  induction l generalizing s with
  | nil => exact h
  | cons j rest ih =>
    cases hr : strEndsWith j "root" with
    | true =>
      simp only [processParentIds, hr, if_true]
      exact ih s h
    | false =>
      simp only [processParentIds, hr, Bool.false_eq_true, if_false]
      apply ih
      rw [(requestComponentTree_selection (some j)
        (setComponentOpen j true s)).2.2.2.2.2]
      exact mlookup_minsert_true _ _ _ h

/-- Every non-root id visited by the parent-id walk finishes expanded. -/
theorem processParentIds_expands (l : List String) (s : CompState)
    (id : String) (hmem : id ∈ l) (hr : strEndsWith id "root" = false) :
    mlookup (processParentIds l s).1.expandedMap id = some true := by
  induction l generalizing s with
  | nil => cases hmem
  | cons j rest ih =>
    rcases List.mem_cons.mp hmem with rfl | hmem2
    · simp only [processParentIds, hr, Bool.false_eq_true, if_false]
      apply processParentIds_keeps_true
      rw [(requestComponentTree_selection (some id)
        (setComponentOpen id true s)).2.2.2.2.2]
      exact mlookup_minsert_self _ _ _
    · cases hrj : strEndsWith j "root" with
      | true =>
        simp only [processParentIds, hrj, if_true]
        exact ih s hmem2
      | false =>
        simp only [processParentIds, hrj, Bool.false_eq_true, if_false]
        exact ih _ hmem2

/-- C9: the ancestor-id list of a detail response is walked in reverse
(outermost first); root-suffixed ids are skipped; every other id finishes
marked expanded and receives exactly one tree-fetch command carrying the
current filter. -/
theorem C9_ancestor_expansion (iid : String) (d : Nat) (pids : List String)
    (s : CompState) (hnd : pids.Nodup) (hne : "" ∉ pids) :
    (handleSelectedData ⟨iid, d, some pids⟩ s).2
      = (pids.reverse.filter fun i => !(strEndsWith i "root")).map
          (fun i => Cmd.treeFetch i s.treeFilter)
    ∧ ∀ id ∈ pids, strEndsWith id "root" = false →
        mlookup (handleSelectedData ⟨iid, d, some pids⟩ s).1.expandedMap id
            = some true
        ∧ (handleSelectedData ⟨iid, d, some pids⟩ s).2.count
            (Cmd.treeFetch id s.treeFilter) = 1 := by
  have hfields := detailSelUpdate_fields ⟨iid, d, some pids⟩ s
  have heq : handleSelectedData ⟨iid, d, some pids⟩ s
      = processParentIds pids.reverse (detailSelUpdate ⟨iid, d, some pids⟩ s) :=
    rfl
  have hner : "" ∉ pids.reverse := fun h => hne (List.mem_reverse.mp h)
  have hsent := processParentIds_sent pids.reverse
    (detailSelUpdate ⟨iid, d, some pids⟩ s) hner
  rw [hfields.2] at hsent
  constructor
  · rw [heq, hsent]
  · intro id hmem hroot
    constructor
    · rw [heq]
      apply processParentIds_expands _ _ _ (List.mem_reverse.mpr hmem) hroot
    · rw [heq, hsent]
      have hinj : Function.Injective (fun i => Cmd.treeFetch i s.treeFilter) := by
        intro a b hab
        simpa using hab
      rw [List.count_map_of_injective _ _ hinj]
      apply List.count_eq_one_of_mem
      · exact (List.nodup_reverse.mpr hnd).filter _
      · exact List.mem_filter.mpr
          ⟨List.mem_reverse.mpr hmem, by rw [hroot]; rfl⟩

/-- Witness for C9 at a concrete response. -/
theorem C9_ancestor_expansion_witness :
    (handleSelectedData ⟨"5:3", 7, some ["4:2", "3:1", "1:root"]⟩ initState).2
      = [Cmd.treeFetch "3:1" "", Cmd.treeFetch "4:2" ""]
    ∧ mlookup (handleSelectedData ⟨"5:3", 7, some ["4:2", "3:1", "1:root"]⟩
        initState).1.expandedMap "4:2" = some true := by
  have h := C9_ancestor_expansion "5:3" 7 ["4:2", "3:1", "1:root"] initState
    (by decide) (by decide)
  refine ⟨?_, (h.2 "4:2" (by decide) (by decide)).1⟩
  rw [h.1]
  rfl

/-! ## C1: lazy subtrees survive known-target merges -/

/-- Simultaneous induction over nodes and forests. -/
theorem node_mutual_ind {P : Node → Prop} {Q : List Node → Prop}
    (hmk : ∀ i h cs m, Q cs → P (Node.mk i h cs m))
    (hnil : Q []) (hcons : ∀ n l, P n → Q l → Q (n :: l)) :
    (∀ n, P n) ∧ (∀ l, Q l) :=
  have hn : ∀ n, P n := fun n =>
    Node.rec (motive_1 := P) (motive_2 := Q)
      (fun i h cs m ih => hmk i h cs m ih) hnil
      (fun hd tl ih1 ih2 => hcons hd tl ih1 ih2) n
  ⟨hn, fun l => List.rec hnil (fun hd tl ih => hcons hd tl (hn hd) ih) l⟩

mutual
/-- All ids of a forest, depth first. -/
def forestIds : List Node → List String
  | [] => []
  | n :: rest => nodeIds n ++ forestIds rest

/-- All ids of a subtree, depth first. -/
def nodeIds : Node → List String
  | .mk i _ cs _ => i :: forestIds cs
end

mutual
/-- Depth-first search for the node carrying a given id. -/
def findNode (x : String) : Node → Option Node
  | .mk i h cs m => if i = x then some (.mk i h cs m) else findForest x cs

/-- Forest-level case of `findNode`. -/
def findForest (x : String) : List Node → Option Node
  | [] => none
  | n :: rest =>
    match findNode x n with
    | some r => some r
    | none => findForest x rest
end

mutual
/-- The restore pass reaches the node with id `x` inside the incoming node
and restores stored children there: every ancestor inside the incoming
tree is known to the map with `hasChildren` set and does not itself
trigger a restore, and at `x` the incoming copy claims children but
carries none while the stored copy has some. -/
def restoresAt (cm : List (String × Node)) (x : String) : Node → Bool
  | .mk i h cs _ =>
    match mlookup cm i with
    | none => false
    | some inst =>
      if i = x then h && cs.isEmpty && !inst.children.isEmpty
      else h && !(cs.isEmpty && !inst.children.isEmpty) && restoresAtList cm x cs

/-- List-level case of `restoresAt`. -/
def restoresAtList (cm : List (String × Node)) (x : String) : List Node → Bool
  | [] => false
  | c :: rest => restoresAt cm x c || restoresAtList cm x rest
end

theorem find_none_of_not_mem (x : String) :
    (∀ n : Node, x ∉ nodeIds n → findNode x n = none)
    ∧ (∀ l : List Node, x ∉ forestIds l → findForest x l = none) := by
  refine node_mutual_ind ?_ ?_ ?_
  · intro i h cs m ih hx
    rw [nodeIds, List.mem_cons] at hx
    push_neg at hx
    unfold findNode
    rw [if_neg (fun hc => hx.1 hc.symm)]
    exact ih hx.2
  · intro _
    rfl
  · intro n l ihn ihl hx
    rw [forestIds, List.mem_append] at hx
    push_neg at hx
    unfold findForest
    rw [ihn hx.1]
    exact ihl hx.2

theorem mem_of_findNode_some (x : String) (n : Node) (nm : Node)
    (hf : findNode x n = some nm) : x ∈ nodeIds n := by
  by_contra hx
  rw [(find_none_of_not_mem x).1 n hx] at hf
  cases hf

theorem mem_of_findForest_some (x : String) (l : List Node) (nm : Node)
    (hf : findForest x l = some nm) : x ∈ forestIds l := by
  by_contra hx
  rw [(find_none_of_not_mem x).2 l hx] at hf
  cases hf

theorem restores_mem (cm : List (String × Node)) (x : String) :
    (∀ n : Node, restoresAt cm x n = true →
      x ∈ nodeIds (restoreChildrenFromComponentsMap cm n))
    ∧ (∀ l : List Node, restoresAtList cm x l = true →
      x ∈ forestIds (restoreChildrenList cm l)) := by
  refine node_mutual_ind ?_ ?_ ?_
  · intro i h cs m ih hres
    unfold restoresAt at hres
    cases hl : mlookup cm i with
    | none => rw [hl] at hres; cases hres
    | some inst =>
      rw [hl] at hres
      dsimp only at hres
      by_cases hix : i = x
      · subst hix
        unfold restoreChildrenFromComponentsMap
        rw [hl]
        dsimp only
        split
        · split
          · exact List.mem_cons_self _ _
          · exact List.mem_cons_self _ _
        · exact List.mem_cons_self _ _
      · rw [if_neg hix] at hres
        obtain ⟨⟨hh, hcond⟩, hrl⟩ :
            (h = true ∧ !(cs.isEmpty && !inst.children.isEmpty) = true)
              ∧ restoresAtList cm x cs = true := by
          simpa [Bool.and_eq_true] using hres
        have hcond2 : (cs.isEmpty && !inst.children.isEmpty) = false := by
          cases hv : (cs.isEmpty && !inst.children.isEmpty) with
          | false => rfl
          | true => rw [hv] at hcond; cases hcond
        unfold restoreChildrenFromComponentsMap
        rw [hl, hh]
        dsimp only
        rw [if_pos rfl, hcond2]
        simp only [Bool.false_eq_true, if_false]
        rw [nodeIds]
        exact List.mem_cons_of_mem _ (ih hrl)
  · intro hres
    cases hres
  · intro n l ihn ihl hres
    rcases Bool.or_eq_true_iff.mp hres with hres1 | hres2
    · rw [restoreChildrenList, forestIds]
      exact List.mem_append_left _ (ihn hres1)
    · rw [restoreChildrenList, forestIds]
      exact List.mem_append_right _ (ihl hres2)

theorem node_eta (n : Node) :
    Node.mk n.id n.hasChildren n.children n.name = n := by
  cases n
  rfl

theorem mlookup_minsert_ne {α : Type} (k x : String) (v : α)
    (m : List (String × α)) (h : k ≠ x) :
    mlookup (minsert k v m) x = mlookup m x := by
  show (if k = x then some v else mlookup m x) = mlookup m x
  rw [if_neg h]

/-- Where the restore pass triggers, the restored tree carries the stored
children at the node with id `x`. -/
theorem restore_children_at (cm : List (String × Node)) (x : String)
    (st : Node) (hst : mlookup cm x = some st) :
    (∀ n : Node, restoresAt cm x n = true →
      (nodeIds (restoreChildrenFromComponentsMap cm n)).Nodup →
      ∃ nm, findNode x (restoreChildrenFromComponentsMap cm n) = some nm
        ∧ nm.children = st.children)
    ∧ (∀ l : List Node, restoresAtList cm x l = true →
      (forestIds (restoreChildrenList cm l)).Nodup →
      ∃ nm, findForest x (restoreChildrenList cm l) = some nm
        ∧ nm.children = st.children) := by
  refine node_mutual_ind ?_ ?_ ?_
  · intro i h cs m ih hres hnd
    unfold restoresAt at hres
    cases hl : mlookup cm i with
    | none => rw [hl] at hres; cases hres
    | some inst =>
      rw [hl] at hres
      dsimp only at hres
      by_cases hix : i = x
      · subst hix
        rw [if_pos rfl] at hres
        obtain ⟨⟨hh, hemp⟩, hne⟩ :
            (h = true ∧ cs.isEmpty = true) ∧ (!inst.children.isEmpty) = true := by
          simpa [Bool.and_eq_true] using hres
        have hinst : inst = st := by
          rw [hl] at hst
          exact Option.some_injective _ hst
        subst hinst
        have hcond : (cs.isEmpty && !inst.children.isEmpty) = true := by
          rw [hemp, hne]
          rfl
        refine ⟨Node.mk i h inst.children m, ?_, rfl⟩
        unfold restoreChildrenFromComponentsMap
        rw [hl, hh]
        dsimp only
        rw [if_pos rfl, hcond]
        simp only [if_true]
        unfold findNode
        rw [if_pos rfl]
      · rw [if_neg hix] at hres
        obtain ⟨⟨hh, hcond⟩, hrl⟩ :
            (h = true ∧ (!(cs.isEmpty && !inst.children.isEmpty)) = true)
              ∧ restoresAtList cm x cs = true := by
          simpa [Bool.and_eq_true] using hres
        have hcond2 : (cs.isEmpty && !inst.children.isEmpty) = false := by
          cases hv : (cs.isEmpty && !inst.children.isEmpty) with
          | false => rfl
          | true => rw [hv] at hcond; cases hcond
        have hrw : restoreChildrenFromComponentsMap cm (Node.mk i h cs m)
            = Node.mk i h (restoreChildrenList cm cs) m := by
          unfold restoreChildrenFromComponentsMap
          rw [hl, hh]
          dsimp only
          rw [if_pos rfl, hcond2]
          simp only [Bool.false_eq_true, if_false]
        rw [hrw] at hnd ⊢
        rw [nodeIds] at hnd
        have hnd2 : (forestIds (restoreChildrenList cm cs)).Nodup :=
          (List.nodup_cons.mp hnd).2
        obtain ⟨nm, hfind, hch⟩ := ih hrl hnd2
        refine ⟨nm, ?_, hch⟩
        unfold findNode
        rw [if_neg hix]
        exact hfind
  · intro hres _
    cases hres
  · intro n l ihn ihl hres hnd
    rw [restoreChildrenList] at hnd ⊢
    rw [forestIds] at hnd
    rw [List.nodup_append] at hnd
    rcases Bool.or_eq_true_iff.mp hres with hres1 | hres2
    · obtain ⟨nm, hfind, hch⟩ := ihn hres1 hnd.1
      refine ⟨nm, ?_, hch⟩
      unfold findForest
      rw [hfind]
    · have hmem := (restores_mem cm x).2 l hres2
      have hnotin : x ∉ nodeIds (restoreChildrenFromComponentsMap cm n) :=
        fun hx => hnd.2.2 hx hmem
      obtain ⟨nm, hfind, hch⟩ := ihl hres2 hnd.2.1
      refine ⟨nm, ?_, hch⟩
      unfold findForest
      rw [(find_none_of_not_mem x).1 _ hnotin]
      exact hfind

/-- Ids not in the added subtree keep their `componentsMap` entry. -/
theorem add_map_preserve (x : String) :
    (∀ n : Node, ∀ s : CompState, x ∉ nodeIds n →
      mlookup (addToComponentsMap n s).componentsMap x
        = mlookup s.componentsMap x)
    ∧ (∀ l : List Node, ∀ pid : String, ∀ s : CompState, x ∉ forestIds l →
      mlookup (addChildrenToComponentsMap l pid s).componentsMap x
        = mlookup s.componentsMap x) := by
  refine node_mutual_ind
    (P := fun n => ∀ s : CompState, x ∉ nodeIds n →
      mlookup (addToComponentsMap n s).componentsMap x
        = mlookup s.componentsMap x)
    (Q := fun l => ∀ pid : String, ∀ s : CompState, x ∉ forestIds l →
      mlookup (addChildrenToComponentsMap l pid s).componentsMap x
        = mlookup s.componentsMap x) ?_ ?_ ?_
  · intro i h cs m ih s hx
    rw [nodeIds, List.mem_cons] at hx
    push_neg at hx
    unfold addToComponentsMap
    rw [ih _ _ hx.2]
    exact mlookup_minsert_ne _ _ _ _ (fun hc => hx.1 hc.symm)
  · intro pid s _
    rfl
  · intro n l ihn ihl pid s hx
    rw [forestIds, List.mem_append] at hx
    push_neg at hx
    unfold addChildrenToComponentsMap
    rw [ihl _ _ hx.2, ihn _ hx.1]

/-- After adding a subtree, the `componentsMap` entry for any id found in
that subtree is the subtree node carrying it. -/
theorem add_map_entry (x : String) :
    (∀ n : Node, ∀ s : CompState, ∀ nm : Node, (nodeIds n).Nodup →
      findNode x n = some nm →
      mlookup (addToComponentsMap n s).componentsMap x = some nm)
    ∧ (∀ l : List Node, ∀ pid : String, ∀ s : CompState, ∀ nm : Node,
      (forestIds l).Nodup → findForest x l = some nm →
      mlookup (addChildrenToComponentsMap l pid s).componentsMap x = some nm) := by
  refine node_mutual_ind
    (P := fun n => ∀ s : CompState, ∀ nm : Node, (nodeIds n).Nodup →
      findNode x n = some nm →
      mlookup (addToComponentsMap n s).componentsMap x = some nm)
    (Q := fun l => ∀ pid : String, ∀ s : CompState, ∀ nm : Node,
      (forestIds l).Nodup → findForest x l = some nm →
      mlookup (addChildrenToComponentsMap l pid s).componentsMap x = some nm)
    ?_ ?_ ?_
  · intro i h cs m ih s nm hnd hfind
    rw [nodeIds] at hnd
    unfold findNode at hfind
    unfold addToComponentsMap
    by_cases hix : i = x
    · rw [if_pos hix] at hfind
      have hxn : x ∉ forestIds cs := by
        subst hix
        exact (List.nodup_cons.mp hnd).1
      rw [(add_map_preserve x).2 cs i _ hxn]
      rw [← hfind]
      subst hix
      exact mlookup_minsert_self _ _ _
    · rw [if_neg hix] at hfind
      exact ih _ _ _ (List.nodup_cons.mp hnd).2 hfind
  · intro pid s nm _ hfind
    cases hfind
  · intro n l ihn ihl pid s nm hnd hfind
    rw [forestIds, List.nodup_append] at hnd
    unfold findForest at hfind
    unfold addChildrenToComponentsMap
    cases hfn : findNode x n with
    | some r =>
      rw [hfn] at hfind
      have hr : r = nm := Option.some_injective _ hfind
      subst hr
      have hmem := mem_of_findNode_some x n r hfn
      have hxn : x ∉ forestIds l := fun hx => hnd.2.2 hmem hx
      rw [(add_map_preserve x).2 l pid _ hxn]
      exact ihn _ _ hnd.1 hfn
    | none =>
      rw [hfn] at hfind
      exact ihl _ _ _ hnd.2.1 hfind

/-- Function `loadComponent` never touches the three mirror tables. -/
theorem loadComponent_tables (o : Option String) (s : CompState) :
    (loadComponent o s).1.componentsMap = s.componentsMap
    ∧ (loadComponent o s).1.componentsParent = s.componentsParent
    ∧ (loadComponent o s).1.rootInstances = s.rootInstances := by
  unfold loadComponent
  cases o with
  | none => exact ⟨rfl, rfl, rfl⟩
  | some i =>
    dsimp only
    split <;> exact ⟨rfl, rfl, rfl⟩

/-- The top-level node of a triggering restore is itself known. -/
theorem restoresAt_top_known (cm : List (String × Node)) (x : String)
    (n : Node) (h : restoresAt cm x n = true) :
    (mlookup cm n.id).isSome = true := by
  cases n with
  | mk i hh cs m =>
    unfold restoresAt at h
    cases hl : mlookup cm i with
    | none => rw [hl] at h; cases h
    | some inst =>
      show (mlookup cm i).isSome = true
      rw [hl]
      rfl

/-- C1 (amended): during a known-target tree update, for every node stored
in the mirror with a non-empty stored children list, if the incoming tree
contains a copy of that node with an empty children list and with
`hasChildren = true`, and the restore walk reaches it (every ancestor
inside the incoming item is itself known with `hasChildren = true` and a
non-empty incoming children list), then after the merge the stored entry
carries exactly the previously stored children.  The restoration is
recursive, child matched by id. -/
theorem C1_lazy_children_preserved (s : CompState) (iid : String)
    (item : Node) (x : String) (st : Node) (nf : Bool)
    (hq : s.resetComponentsQueued = false)
    (hknown : (mlookup s.componentsMap iid).isSome = true)
    (hst : mlookup s.componentsMap x = some st)
    (hres : restoresAt s.componentsMap x item = true)
    (hnodup :
      (nodeIds (restoreChildrenFromComponentsMap s.componentsMap item)).Nodup) :
    ∃ nm : Node,
      mlookup (handleComponentTree ⟨iid, some (TreePayload.ok [item]), nf⟩
          s).state.componentsMap x = some nm
      ∧ nm.children = st.children := by
  obtain ⟨v, hv⟩ := Option.isSome_iff_exists.mp hknown
  obtain ⟨w, hw⟩ :=
    Option.isSome_iff_exists.mp (restoresAt_top_known _ _ _ hres)
  have hid : mlookup s.componentsMap
      (restoreChildrenFromComponentsMap s.componentsMap item).id = some w := by
    rw [restore_id]
    exact hw
  have hupd : updateComponentsMapData s.componentsMap
      (restoreChildrenFromComponentsMap s.componentsMap item)
      = some (restoreChildrenFromComponentsMap s.componentsMap item) := by
    unfold updateComponentsMapData
    rw [hid]
    dsimp only
    rw [node_eta]
  have happ : applyTreeItems [item] s
      = (addToComponentsMap
          (restoreChildrenFromComponentsMap s.componentsMap item)
          { s with rootInstances :=
              (substForest
                (restoreChildrenFromComponentsMap s.componentsMap item).id
                (restoreChildrenFromComponentsMap s.componentsMap item)
                s.rootInstances) }, false) := by
    simp only [applyTreeItems, hupd]
  obtain ⟨s2, hstate⟩ : ∃ s2 : CompState,
      (handleComponentTree ⟨iid, some (TreePayload.ok [item]), nf⟩
        s).state.componentsMap
      = (addToComponentsMap
          (restoreChildrenFromComponentsMap s.componentsMap item)
          s2).componentsMap :=
    ⟨_, by
      unfold handleComponentTree
      rw [hq]
      simp only [Bool.false_eq_true, if_false, hv, happ]
      split
      · dsimp only
        exact (loadComponent_tables _ _).1
      · rfl⟩
  obtain ⟨nm, hfind, hch⟩ :=
    (restore_children_at s.componentsMap x st hst).1 item hres hnodup
  refine ⟨nm, ?_, hch⟩
  rw [hstate]
  exact (add_map_entry x).1 _ _ _ hnodup hfind

/-- Witness for C1 (amended) at a concrete state: a known node with a
stored child receives an update with an empty children list and keeps its
child. -/
theorem C1_lazy_children_preserved_witness :
    ∃ nm : Node,
      mlookup (handleComponentTree
          ⟨"t1", some (TreePayload.ok [Node.mk "t1" true [] ""]), false⟩
          { initState with componentsMap :=
              [("t1", Node.mk "t1" true [Node.mk "c1" false [] ""] "")] }
          ).state.componentsMap "t1" = some nm
      ∧ nm.children
          = (Node.mk "t1" true [Node.mk "c1" false [] ""] "").children :=
  C1_lazy_children_preserved
    { initState with componentsMap :=
        [("t1", Node.mk "t1" true [Node.mk "c1" false [] ""] "")] }
    "t1" (Node.mk "t1" true [] "") "t1"
    (Node.mk "t1" true [Node.mk "c1" false [] ""] "") false
    rfl rfl rfl rfl (by decide)

/-- C1 counterexample: a stored node with `hasChildren = true` and one
stored child receives a known-target update whose incoming copy has an
empty children list (and `hasChildren = false`); its stored children list
is emptied, so the claim as stated (which does not constrain the incoming
`hasChildren` flag) fails. -/
theorem C1_counterexample :
    Node.hasChildren ((mlookup
        [("t1", Node.mk "t1" true [Node.mk "c1" false [] ""] "")] "t1").getD
        (Node.mk "" false [] "")) = true
    ∧ (Node.children ((mlookup
        [("t1", Node.mk "t1" true [Node.mk "c1" false [] ""] "")] "t1").getD
        (Node.mk "" false [] ""))).length = 1
    ∧ ∃ nm : Node,
        mlookup (handleComponentTree
            ⟨"t1", some (TreePayload.ok [Node.mk "t1" false [] ""]), false⟩
            { initState with componentsMap :=
                [("t1", Node.mk "t1" true [Node.mk "c1" false [] ""] "")] }
            ).state.componentsMap "t1" = some nm
        ∧ nm.children.length = 0 :=
  ⟨rfl, rfl, ⟨Node.mk "t1" false [] "", rfl, rfl⟩⟩

/-! ## C8: parent-table consistency -/

/-- The parent edges contributed by one children list: child id paired with
the parent id. -/
def childEdges (p : String) : List Node → List (String × String)
  | [] => []
  | c :: rest => (c.id, p) :: childEdges p rest

mutual
/-- All (child id, parent id) edges of a forest. -/
def forestPairs : List Node → List (String × String)
  | [] => []
  | n :: rest => nodePairs n ++ forestPairs rest

/-- All (child id, parent id) edges inside a subtree. -/
def nodePairs : Node → List (String × String)
  | .mk i _ cs _ => childEdges i cs ++ forestPairs cs
end

/-- The ids strictly below a node. -/
def descIds : Node → List String
  | .mk _ _ cs _ => forestIds cs

mutual
/-- The ids of a forest outside the subtrees rooted at id `t`. -/
def forestIdsExcept (t : String) : List Node → List String
  | [] => []
  | n :: rest => nodeIdsExcept t n ++ forestIdsExcept t rest

/-- Node-level case of `forestIdsExcept`. -/
def nodeIdsExcept (t : String) : Node → List String
  | .mk i _ cs _ => if i = t then [] else i :: forestIdsExcept t cs
end

/-- Every edge registered: the claimed parent-table invariant, forward
direction — every reachable child maps to its tree parent. -/
def EdgesRegistered (s : CompState) : Prop :=
  ∀ c p : String, (c, p) ∈ forestPairs s.rootInstances →
    mlookup s.componentsParent c = some p

/-- The maintained invariant: unique ids in the mounted forest and every
edge registered in the parent table. -/
def MirrorInv (s : CompState) : Prop :=
  (forestIds s.rootInstances).Nodup ∧ EdgesRegistered s

theorem id_mem_nodeIds (n : Node) : n.id ∈ nodeIds n := by
  cases n with
  | mk i h cs m => exact List.mem_cons_self _ _

theorem descIds_subset_nodeIds (n : Node) (a : String) (ha : a ∈ descIds n) :
    a ∈ nodeIds n := by
  cases n with
  | mk i h cs m =>
    rw [nodeIds]
    exact List.mem_cons_of_mem _ ha

theorem childEdges_mem (pid : String) (cs : List Node) (c p : String)
    (h : (c, p) ∈ childEdges pid cs) :
    p = pid ∧ ∃ c0 ∈ cs, c = c0.id := by
  induction cs with
  | nil => cases h
  | cons c0 rest ih =>
    rw [childEdges, List.mem_cons] at h
    rcases h with h1 | h2
    · obtain ⟨hc, hp⟩ := Prod.mk.injEq .. ▸ h1
      exact ⟨hp.symm ▸ rfl, c0, List.mem_cons_self _ _, hc ▸ rfl⟩
    · obtain ⟨hp, c1, hc1, hc⟩ := ih h2
      exact ⟨hp, c1, List.mem_cons_of_mem _ hc1, hc⟩

theorem mem_forestIds_of_mem (cs : List Node) (c0 : Node) (hc0 : c0 ∈ cs) :
    c0.id ∈ forestIds cs := by
  induction cs with
  | nil => cases hc0
  | cons c1 rest ih =>
    rw [forestIds, List.mem_append]
    rcases List.mem_cons.mp hc0 with rfl | h2
    · exact Or.inl (id_mem_nodeIds _)
    · exact Or.inr (ih h2)

theorem childEdges_child_mem (pid : String) (cs : List Node) (c p : String)
    (h : (c, p) ∈ childEdges pid cs) : c ∈ forestIds cs := by
  obtain ⟨_, c0, hc0, hc⟩ := childEdges_mem pid cs c p h
  subst hc
  exact mem_forestIds_of_mem cs c0 hc0

theorem pair_child_mem :
    (∀ n : Node, ∀ c p : String, (c, p) ∈ nodePairs n → c ∈ descIds n)
    ∧ (∀ l : List Node, ∀ c p : String, (c, p) ∈ forestPairs l →
        c ∈ forestIds l) := by
  refine node_mutual_ind ?_ ?_ ?_
  · intro i h cs m ih c p hmem
    rw [nodePairs, List.mem_append] at hmem
    rw [descIds]
    rcases hmem with h1 | h2
    · exact childEdges_child_mem i cs c p h1
    · exact ih c p h2
  · intro c p hmem
    cases hmem
  · intro n l ihn ihl c p hmem
    rw [forestPairs, List.mem_append] at hmem
    rw [forestIds, List.mem_append]
    rcases hmem with h1 | h2
    · exact Or.inl (descIds_subset_nodeIds n c (ihn c p h1))
    · exact Or.inr (ihl c p h2)

theorem except_subset (t : String) :
    (∀ n : Node, ∀ a : String, a ∈ nodeIdsExcept t n → a ∈ nodeIds n)
    ∧ (∀ l : List Node, ∀ a : String, a ∈ forestIdsExcept t l →
        a ∈ forestIds l) := by
  refine node_mutual_ind ?_ ?_ ?_
  · intro i h cs m ih a ha
    rw [nodeIdsExcept] at ha
    rw [nodeIds]
    by_cases hit : i = t
    · rw [if_pos hit] at ha
      cases ha
    · rw [if_neg hit, List.mem_cons] at ha
      rcases ha with rfl | ha2
      · exact List.mem_cons_self _ _
      · exact List.mem_cons_of_mem _ (ih a ha2)
  · intro a ha
    cases ha
  · intro n l ihn ihl a ha
    rw [forestIdsExcept, List.mem_append] at ha
    rw [forestIds, List.mem_append]
    rcases ha with h1 | h2
    · exact Or.inl (ihn a h1)
    · exact Or.inr (ihl a h2)

theorem t_not_mem_except (t : String) :
    (∀ n : Node, t ∉ nodeIdsExcept t n)
    ∧ (∀ l : List Node, t ∉ forestIdsExcept t l) := by
  refine node_mutual_ind ?_ ?_ ?_
  · intro i h cs m ih ha
    rw [nodeIdsExcept] at ha
    by_cases hit : i = t
    · rw [if_pos hit] at ha
      cases ha
    · rw [if_neg hit, List.mem_cons] at ha
      rcases ha with rfl | ha2
      · exact hit rfl
      · exact ih ha2
  · intro ha
    cases ha
  · intro n l ihn ihl ha
    rw [forestIdsExcept, List.mem_append] at ha
    rcases ha with h1 | h2
    · exact ihn h1
    · exact ihl h2

theorem exceptF_of_mem (t : String) (cs : List Node) (c0 : Node)
    (hc0 : c0 ∈ cs) (a : String) (ha : a ∈ nodeIdsExcept t c0) :
    a ∈ forestIdsExcept t cs := by
  induction cs with
  | nil => cases hc0
  | cons c1 rest ih =>
    rw [forestIdsExcept, List.mem_append]
    rcases List.mem_cons.mp hc0 with rfl | h2
    · exact Or.inl ha
    · exact Or.inr (ih h2)

theorem substNode_id (t : String) (v : Node) (hv : v.id = t) (n : Node) :
    (substNode t v n).id = n.id := by
  cases n with
  | mk i h cs m =>
    unfold substNode
    by_cases hit : i = t
    · rw [if_pos hit, hv, hit]
      rfl
    · rw [if_neg hit]
      rfl

theorem childEdges_subst (t : String) (v : Node) (hv : v.id = t)
    (pid : String) (cs : List Node) :
    childEdges pid (substForest t v cs) = childEdges pid cs := by
  induction cs with
  | nil => rfl
  | cons c rest ih =>
    show childEdges pid (substNode t v c :: substForest t v rest) = _
    rw [childEdges, childEdges, substNode_id t v hv, ih]

/-- Every edge of the substituted forest is an edge of the inserted subtree,
or an edge of the original forest whose child id is the substituted id
itself or lies outside the replaced subtrees. -/
theorem edge_subst (t : String) (v : Node) (hv : v.id = t) :
    (∀ n : Node, ∀ c p : String, (c, p) ∈ nodePairs (substNode t v n) →
      (c, p) ∈ nodePairs v
      ∨ ((c, p) ∈ nodePairs n ∧ (c = t ∨ c ∈ nodeIdsExcept t n)))
    ∧ (∀ l : List Node, ∀ c p : String, (c, p) ∈ forestPairs (substForest t v l) →
      (c, p) ∈ nodePairs v
      ∨ ((c, p) ∈ forestPairs l ∧ (c = t ∨ c ∈ forestIdsExcept t l))) := by
  refine node_mutual_ind ?_ ?_ ?_
  · intro i h cs m ih c p hmem
    by_cases hit : i = t
    · left
      unfold substNode at hmem
      rw [if_pos hit] at hmem
      exact hmem
    · unfold substNode at hmem
      rw [if_neg hit] at hmem
      rw [nodePairs, List.mem_append, childEdges_subst t v hv] at hmem
      rcases hmem with h1 | h2
      · right
        constructor
        · rw [nodePairs, List.mem_append]
          exact Or.inl h1
        · by_cases hct : c = t
          · exact Or.inl hct
          · right
            rw [nodeIdsExcept, if_neg hit, List.mem_cons]
            obtain ⟨_, c0, hc0, hc⟩ := childEdges_mem i cs c p h1
            subst hc
            by_cases hc0t : c0.id = t
            · exact absurd hc0t hct
            · refine Or.inr (exceptF_of_mem t cs c0 hc0 _ ?_)
              cases c0 with
              | mk j jh jcs jm =>
                rw [nodeIdsExcept, if_neg (show ¬j = t from hc0t)]
                show j ∈ j :: forestIdsExcept t jcs
                exact List.mem_cons_self _ _
      · rcases ih c p h2 with hl | ⟨hp, hc⟩
        · exact Or.inl hl
        · right
          refine ⟨by rw [nodePairs, List.mem_append]; exact Or.inr hp, ?_⟩
          rcases hc with hct | hce
          · exact Or.inl hct
          · right
            rw [nodeIdsExcept, if_neg hit]
            exact List.mem_cons_of_mem _ hce
  · intro c p hmem
    cases hmem
  · intro n l ihn ihl c p hmem
    change (c, p) ∈ forestPairs (substNode t v n :: substForest t v l) at hmem
    rw [forestPairs, List.mem_append] at hmem
    rcases hmem with h1 | h2
    · rcases ihn c p h1 with hl | ⟨hp, hc⟩
      · exact Or.inl hl
      · right
        refine ⟨by rw [forestPairs, List.mem_append]; exact Or.inl hp, ?_⟩
        rcases hc with hct | hce
        · exact Or.inl hct
        · right
          rw [forestIdsExcept, List.mem_append]
          exact Or.inl hce
    · rcases ihl c p h2 with hl | ⟨hp, hc⟩
      · exact Or.inl hl
      · right
        refine ⟨by rw [forestPairs, List.mem_append]; exact Or.inr hp, ?_⟩
        rcases hc with hct | hce
        · exact Or.inl hct
        · right
          rw [forestIdsExcept, List.mem_append]
          exact Or.inr hce

/-- Substituting a subtree with unique ids that avoids the rest of the
forest preserves uniqueness; and every id of the result is an original id
outside the replaced subtrees, or an id of the inserted subtree present
only where the substituted id occurred. -/
theorem nodup_subst (t : String) (v : Node)
    (hvnd : (nodeIds v).Nodup) :
    (∀ n : Node, (nodeIds n).Nodup →
      (∀ i ∈ nodeIds v, i ∉ nodeIdsExcept t n) →
      (nodeIds (substNode t v n)).Nodup
      ∧ (∀ a ∈ nodeIds (substNode t v n),
          a ∈ nodeIdsExcept t n ∨ (a ∈ nodeIds v ∧ t ∈ nodeIds n)))
    ∧ (∀ l : List Node, (forestIds l).Nodup →
      (∀ i ∈ nodeIds v, i ∉ forestIdsExcept t l) →
      (forestIds (substForest t v l)).Nodup
      ∧ (∀ a ∈ forestIds (substForest t v l),
          a ∈ forestIdsExcept t l ∨ (a ∈ nodeIds v ∧ t ∈ forestIds l))) := by
  refine node_mutual_ind ?_ ?_ ?_
  · intro i h cs m ih hnd hcond
    by_cases hit : i = t
    · rw [show substNode t v (Node.mk i h cs m) = v by
        unfold substNode; rw [if_pos hit]]
      refine ⟨hvnd, fun a ha => Or.inr ⟨ha, ?_⟩⟩
      rw [nodeIds, hit]
      exact List.mem_cons_self _ _
    · rw [show substNode t v (Node.mk i h cs m)
          = Node.mk i h (substForest t v cs) m by
        unfold substNode; rw [if_neg hit]]
      have hcond2 : ∀ i0 ∈ nodeIds v, i0 ∉ forestIdsExcept t cs := by
        intro i0 hi0 hmem
        exact hcond i0 hi0 (by
          rw [nodeIdsExcept, if_neg hit]
          exact List.mem_cons_of_mem _ hmem)
      rw [nodeIds] at hnd
      obtain ⟨hnds, hmems⟩ := ih (List.nodup_cons.mp hnd).2 hcond2
      constructor
      · rw [nodeIds, List.nodup_cons]
        refine ⟨?_, hnds⟩
        intro hi
        rcases hmems i hi with he | ⟨hiv, _⟩
        · exact (List.nodup_cons.mp hnd).1 ((except_subset t).2 cs i he)
        · exact hcond i hiv (by
            rw [nodeIdsExcept, if_neg hit]
            exact List.mem_cons_self _ _)
      · intro a ha
        rw [nodeIds, List.mem_cons] at ha
        rcases ha with rfl | ha2
        · left
          rw [nodeIdsExcept, if_neg hit]
          exact List.mem_cons_self _ _
        · rcases hmems a ha2 with he | ⟨hav, htv⟩
          · left
            rw [nodeIdsExcept, if_neg hit]
            exact List.mem_cons_of_mem _ he
          · right
            refine ⟨hav, ?_⟩
            rw [nodeIds]
            exact List.mem_cons_of_mem _ htv
  · intro _ _
    exact ⟨List.nodup_nil, fun a ha => absurd ha (List.not_mem_nil a)⟩
  · intro n l ihn ihl hnd hcond
    rw [forestIds, List.nodup_append] at hnd
    obtain ⟨hnd1, hnd2, hdisj⟩ := hnd
    have hcond1 : ∀ i0 ∈ nodeIds v, i0 ∉ nodeIdsExcept t n := by
      intro i0 hi0 hmem
      exact hcond i0 hi0 (by
        rw [forestIdsExcept, List.mem_append]
        exact Or.inl hmem)
    have hcond2 : ∀ i0 ∈ nodeIds v, i0 ∉ forestIdsExcept t l := by
      intro i0 hi0 hmem
      exact hcond i0 hi0 (by
        rw [forestIdsExcept, List.mem_append]
        exact Or.inr hmem)
    obtain ⟨hna, hma⟩ := ihn hnd1 hcond1
    obtain ⟨hnb, hmb⟩ := ihl hnd2 hcond2
    constructor
    · show (forestIds (substNode t v n :: substForest t v l)).Nodup
      rw [forestIds, List.nodup_append]
      refine ⟨hna, hnb, ?_⟩
      intro a ha hb
      rcases hma a ha with he1 | ⟨hv1, ht1⟩
      · rcases hmb a hb with he2 | ⟨hv2, ht2⟩
        · exact hdisj ((except_subset t).1 n a he1)
            ((except_subset t).2 l a he2)
        · exact absurd he1 (hcond1 a hv2)
      · rcases hmb a hb with he2 | ⟨hv2, ht2⟩
        · exact absurd he2 (hcond2 a hv1)
        · exact hdisj ht1 ht2
    · intro a ha
      change a ∈ forestIds (substNode t v n :: substForest t v l) at ha
      rw [forestIds, List.mem_append] at ha
      rcases ha with h1 | h2
      · rcases hma a h1 with he | ⟨hav, htv⟩
        · left
          rw [forestIdsExcept, List.mem_append]
          exact Or.inl he
        · right
          exact ⟨hav, by rw [forestIds, List.mem_append]; exact Or.inl htv⟩
      · rcases hmb a h2 with he | ⟨hav, htv⟩
        · left
          rw [forestIdsExcept, List.mem_append]
          exact Or.inr he
        · right
          exact ⟨hav, by rw [forestIds, List.mem_append]; exact Or.inr htv⟩

/-- Registering a subtree never changes the root list. -/
theorem add_roots_preserved :
    (∀ n : Node, ∀ s : CompState,
      (addToComponentsMap n s).rootInstances = s.rootInstances)
    ∧ (∀ l : List Node, ∀ pid : String, ∀ s : CompState,
      (addChildrenToComponentsMap l pid s).rootInstances = s.rootInstances) := by
  refine node_mutual_ind
    (P := fun n => ∀ s : CompState,
      (addToComponentsMap n s).rootInstances = s.rootInstances)
    (Q := fun l => ∀ pid : String, ∀ s : CompState,
      (addChildrenToComponentsMap l pid s).rootInstances = s.rootInstances)
    ?_ ?_ ?_
  · intro i h cs m ih s
    unfold addToComponentsMap
    rw [ih]
  · intro pid s
    rfl
  · intro n l ihn ihl pid s
    unfold addChildrenToComponentsMap
    rw [ihl, ihn]

/-- Ids outside the registered subtree keep their parent-table entry. -/
theorem add_par_preserve (x : String) :
    (∀ n : Node, ∀ s : CompState, x ∉ descIds n →
      mlookup (addToComponentsMap n s).componentsParent x
        = mlookup s.componentsParent x)
    ∧ (∀ l : List Node, ∀ pid : String, ∀ s : CompState, x ∉ forestIds l →
      mlookup (addChildrenToComponentsMap l pid s).componentsParent x
        = mlookup s.componentsParent x) := by
  refine node_mutual_ind
    (P := fun n => ∀ s : CompState, x ∉ descIds n →
      mlookup (addToComponentsMap n s).componentsParent x
        = mlookup s.componentsParent x)
    (Q := fun l => ∀ pid : String, ∀ s : CompState, x ∉ forestIds l →
      mlookup (addChildrenToComponentsMap l pid s).componentsParent x
        = mlookup s.componentsParent x)
    ?_ ?_ ?_
  · intro i h cs m ih s hx
    rw [descIds] at hx
    unfold addToComponentsMap
    exact ih _ _ hx
  · intro pid s _
    rfl
  · intro n l ihn ihl pid s hx
    rw [forestIds, List.mem_append] at hx
    push_neg at hx
    unfold addChildrenToComponentsMap
    rw [ihl _ _ hx.2]
    rw [ihn _ (fun hd => hx.1 (descIds_subset_nodeIds n x hd))]
    exact mlookup_minsert_ne _ _ _ _
      (fun hc => hx.1 (hc ▸ id_mem_nodeIds n))

/-- Registering a subtree with unique ids records every one of its parent
edges. -/
theorem add_par_reg :
    (∀ n : Node, ∀ s : CompState, (nodeIds n).Nodup →
      ∀ c p : String, (c, p) ∈ nodePairs n →
      mlookup (addToComponentsMap n s).componentsParent c = some p)
    ∧ (∀ l : List Node, ∀ pid : String, ∀ s : CompState,
      (forestIds l).Nodup →
      ∀ c p : String, (c, p) ∈ childEdges pid l ++ forestPairs l →
      mlookup (addChildrenToComponentsMap l pid s).componentsParent c
        = some p) := by
  refine node_mutual_ind
    (P := fun n => ∀ s : CompState, (nodeIds n).Nodup →
      ∀ c p : String, (c, p) ∈ nodePairs n →
      mlookup (addToComponentsMap n s).componentsParent c = some p)
    (Q := fun l => ∀ pid : String, ∀ s : CompState, (forestIds l).Nodup →
      ∀ c p : String, (c, p) ∈ childEdges pid l ++ forestPairs l →
      mlookup (addChildrenToComponentsMap l pid s).componentsParent c
        = some p)
    ?_ ?_ ?_
  · intro i h cs m ih s hnd c p hmem
    rw [nodeIds] at hnd
    rw [nodePairs] at hmem
    unfold addToComponentsMap
    exact ih i _ (List.nodup_cons.mp hnd).2 c p hmem
  · intro pid s _ c p hmem
    cases hmem
  · intro c0 l ihn ihl pid s hnd c p hmem
    rw [forestIds, List.nodup_append] at hnd
    obtain ⟨hnd1, hnd2, hdisj⟩ := hnd
    unfold addChildrenToComponentsMap
    rw [childEdges, forestPairs, List.cons_append, List.mem_cons,
      List.mem_append, List.mem_append] at hmem
    rcases hmem with hA1 | hA2 | hB1 | hB2
    · have hc : c = c0.id := congrArg Prod.fst hA1
      have hp : p = pid := congrArg Prod.snd hA1
      subst hc
      rw [hp]
      have hc0l : c0.id ∉ forestIds l :=
        fun hmem2 => hdisj (id_mem_nodeIds c0) hmem2
      rw [(add_par_preserve c0.id).2 l pid _ hc0l]
      have hc0d : c0.id ∉ descIds c0 := by
        cases c0 with
        | mk j jh jcs jm =>
          have h2 : (j :: forestIds jcs).Nodup := hnd1
          intro hd
          exact (List.nodup_cons.mp h2).1 hd
      rw [(add_par_preserve c0.id).1 c0 _ hc0d]
      exact mlookup_minsert_self _ _ _
    · exact ihl pid _ hnd2 c p (List.mem_append.mpr (Or.inl hA2))
    · have hcmem : c ∈ nodeIds c0 :=
        descIds_subset_nodeIds c0 c (pair_child_mem.1 c0 c p hB1)
      have hcl : c ∉ forestIds l := fun hm2 => hdisj hcmem hm2
      rw [(add_par_preserve c).2 l pid _ hcl]
      exact ihn _ hnd1 c p hB1
    · exact ihl pid _ hnd2 c p (List.mem_append.mpr (Or.inr hB2))

theorem addRoots_roots_preserved (l : List Node) (s : CompState) :
    (addRootsToComponentsMap l s).rootInstances = s.rootInstances := by
  induction l generalizing s with
  | nil => rfl
  | cons n rest ih =>
    unfold addRootsToComponentsMap
    rw [ih, add_roots_preserved.1 n s]

theorem addRoots_par_preserve (l : List Node) (x : String) :
    ∀ s : CompState, x ∉ forestIds l →
      mlookup (addRootsToComponentsMap l s).componentsParent x
        = mlookup s.componentsParent x := by
  induction l with
  | nil => intro s _; rfl
  | cons n rest ih =>
    intro s hx
    rw [forestIds, List.mem_append] at hx
    push_neg at hx
    unfold addRootsToComponentsMap
    rw [ih _ hx.2, (add_par_preserve x).1 n s
      (fun hd => hx.1 (descIds_subset_nodeIds n x hd))]

theorem addRoots_edges (l : List Node) :
    ∀ s : CompState, (forestIds l).Nodup →
      ∀ c p : String, (c, p) ∈ forestPairs l →
        mlookup (addRootsToComponentsMap l s).componentsParent c = some p := by
  induction l with
  | nil => intro s _ c p hmem; cases hmem
  | cons n rest ih =>
    intro s hnd c p hmem
    rw [forestIds, List.nodup_append] at hnd
    rw [forestPairs, List.mem_append] at hmem
    unfold addRootsToComponentsMap
    rcases hmem with h1 | h2
    · have hcmem : c ∈ nodeIds n :=
        descIds_subset_nodeIds n c (pair_child_mem.1 n c p h1)
      rw [addRoots_par_preserve rest c _ (fun hm2 => hnd.2.2 hcmem hm2)]
      exact add_par_reg.1 n s hnd.1 c p h1
    · exact ih _ hnd.2.1 c p h2

theorem reset_inv (s : CompState) : MirrorInv (resetComponents s) := by
  constructor
  · exact List.nodup_nil
  · intro c p h
    exact absurd (h : (c, p) ∈ ([] : List (String × String)))
      (List.not_mem_nil _)

theorem mirrorInv_of_tables (s1 s2 : CompState)
    (hr : s2.rootInstances = s1.rootInstances)
    (hp : s2.componentsParent = s1.componentsParent)
    (h : MirrorInv s1) : MirrorInv s2 := by
  constructor
  · rw [hr]
    exact h.1
  · intro c p hm
    rw [hr] at hm
    rw [hp]
    exact h.2 c p hm

theorem updateComponentsMapData_known (cm : List (String × Node)) (d : Node)
    (hk : (mlookup cm d.id).isSome = true) :
    updateComponentsMapData cm d = some d := by
  obtain ⟨w, hw⟩ := Option.isSome_iff_exists.mp hk
  unfold updateComponentsMapData
  rw [hw]
  dsimp only
  rw [node_eta]

theorem applyTreeItems_cons_known (item : Node) (rest : List Node)
    (s : CompState)
    (hk : (mlookup s.componentsMap
        (restoreChildrenFromComponentsMap s.componentsMap item).id).isSome
      = true) :
    applyTreeItems (item :: rest) s
      = applyTreeItems rest
          (addToComponentsMap
            (restoreChildrenFromComponentsMap s.componentsMap item)
            { s with rootInstances :=
                (substForest
                  (restoreChildrenFromComponentsMap s.componentsMap item).id
                  (restoreChildrenFromComponentsMap s.componentsMap item)
                  s.rootInstances) }) := by
  have hupd := updateComponentsMapData_known s.componentsMap _ hk
  simp only [applyTreeItems, hupd]

/-- Well-formedness of the items of one known-target refresh, checked
against the evolving state: every restored top-level item is known, has
unique ids, and introduces below itself only ids that are new to the
mounted forest or lie inside the subtree being replaced. -/
def wfItems : List Node → CompState → Prop
  | [], _ => True
  | item :: rest, s =>
    (mlookup s.componentsMap
        (restoreChildrenFromComponentsMap s.componentsMap item).id).isSome
      = true
    ∧ (nodeIds (restoreChildrenFromComponentsMap s.componentsMap item)).Nodup
    ∧ (∀ i ∈ descIds (restoreChildrenFromComponentsMap s.componentsMap item),
        i ∉ forestIdsExcept
            (restoreChildrenFromComponentsMap s.componentsMap item).id
            s.rootInstances)
    ∧ wfItems rest
        (addToComponentsMap
          (restoreChildrenFromComponentsMap s.componentsMap item)
          { s with rootInstances :=
              (substForest
                (restoreChildrenFromComponentsMap s.componentsMap item).id
                (restoreChildrenFromComponentsMap s.componentsMap item)
                s.rootInstances) })

/-- Well-formedness of one tree-data message relative to the state it is
applied to: a known-target refresh must satisfy `wfItems`, a root
replacement must carry unique ids. -/
def wfTreeMsg (msg : TreeMsg) (s0 : CompState) : Prop :=
  match msg.treeData with
  | none => True
  | some TreePayload.malformed => True
  | some (TreePayload.ok data) =>
    let s := if s0.resetComponentsQueued then resetComponents s0 else s0
    match mlookup s.componentsMap msg.instanceId with
    | some _ => wfItems data s
    | none => (forestIds data).Nodup

/-- Applying a sequence of tree-data messages. -/
def applyMsgs : List TreeMsg → CompState → CompState
  | [], s => s
  | msg :: rest, s => applyMsgs rest (handleComponentTree msg s).state

/-- Well-formedness of a message sequence, each message checked against
the state it meets. -/
def wfMsgs : List TreeMsg → CompState → Prop
  | [], _ => True
  | msg :: rest, s =>
    wfTreeMsg msg s ∧ wfMsgs rest (handleComponentTree msg s).state

/-- One known-target item step preserves the mirror invariant. -/
theorem item_step_inv (s : CompState) (item1 : Node)
    (hnd : (nodeIds item1).Nodup)
    (hdisj : ∀ i ∈ descIds item1,
      i ∉ forestIdsExcept item1.id s.rootInstances)
    (hinv : MirrorInv s) :
    MirrorInv (addToComponentsMap item1
      { s with rootInstances :=
          (substForest item1.id item1 s.rootInstances) }) := by
  have hvcond : ∀ i ∈ nodeIds item1,
      i ∉ forestIdsExcept item1.id s.rootInstances := by
    intro i hi
    cases item1 with
    | mk j jh jcs jm =>
      rcases List.mem_cons.mp (hi : i ∈ j :: forestIds jcs) with rfl | hi2
      · exact (t_not_mem_except _).2 _
      · exact hdisj i hi2
  obtain ⟨hnodup2, _⟩ :=
    (nodup_subst item1.id item1 hnd).2 s.rootInstances hinv.1 hvcond
  constructor
  · rw [add_roots_preserved.1]
    exact hnodup2
  · intro c p hmem
    rw [add_roots_preserved.1] at hmem
    have hmem2 : (c, p) ∈ forestPairs
        (substForest item1.id item1 s.rootInstances) := hmem
    rcases (edge_subst item1.id item1 rfl).2 s.rootInstances c p hmem2 with
      hin | ⟨hold, hside⟩
    · exact add_par_reg.1 item1 _ hnd c p hin
    · have hcnot : c ∉ descIds item1 := by
        rcases hside with rfl | hce
        · cases item1 with
          | mk j jh jcs jm =>
            have h2 : (j :: forestIds jcs).Nodup := hnd
            intro hd
            exact (List.nodup_cons.mp h2).1 hd
        · intro hd
          exact hdisj c hd hce
      rw [(add_par_preserve c).1 item1 _ hcnot]
      exact hinv.2 c p hold

/-- The known-target loop preserves the invariant and never throws on
well-formed items. -/
theorem items_fold_inv (items : List Node) :
    ∀ s : CompState, wfItems items s → MirrorInv s →
      MirrorInv (applyTreeItems items s).1
      ∧ (applyTreeItems items s).2 = false := by
  induction items with
  | nil => intro s _ hinv; exact ⟨hinv, rfl⟩
  | cons item rest ih =>
    intro s hwf hinv
    obtain ⟨hks, hnd, hdisj, hwf2⟩ := hwf
    rw [applyTreeItems_cons_known item rest s hks]
    exact ih _ hwf2 (item_step_inv s _ hnd hdisj hinv)

/-- One well-formed tree-data message preserves the mirror invariant. -/
theorem msg_step_inv (msg : TreeMsg) (s : CompState)
    (hwf : wfTreeMsg msg s) (hinv : MirrorInv s) :
    MirrorInv (handleComponentTree msg s).state := by
  obtain ⟨iid, td, nf⟩ := msg
  have hinv2 : MirrorInv
      (if s.resetComponentsQueued = true then resetComponents s else s) := by
    split
    · exact reset_inv s
    · exact hinv
  unfold wfTreeMsg at hwf
  dsimp only at hwf
  unfold handleComponentTree
  dsimp only
  revert hinv2 hwf
  generalize (if s.resetComponentsQueued = true then resetComponents s
    else s) = s1
  intro hwf hinv2
  cases td with
  | none =>
    dsimp only
    split
    · exact hinv2
    · exact hinv2
  | some payload =>
    cases payload with
    | malformed =>
      dsimp only
      exact hinv2
    | ok data =>
      dsimp only at hwf ⊢
      cases hlk : mlookup s1.componentsMap iid with
      | some v =>
        rw [hlk] at hwf
        dsimp only at hwf
        dsimp only
        obtain ⟨hres, hthrew⟩ := items_fold_inv data _ hwf hinv2
        revert hres hthrew
        generalize applyTreeItems data s1 = r
        obtain ⟨s3, b⟩ := r
        intro hres hthrew
        dsimp only at hres hthrew
        subst hthrew
        dsimp only
        split
        · dsimp only
          exact mirrorInv_of_tables _ _ (loadComponent_tables _ _).2.2
            (loadComponent_tables _ _).2.1 hres
        · exact hres
      | none =>
        rw [hlk] at hwf
        dsimp only at hwf
        dsimp only
        have hinv3 : MirrorInv
            (addRootsToComponentsMap data
              { s1 with rootInstances := data }) := by
          constructor
          · rw [addRoots_roots_preserved]
            exact hwf
          · intro c p hm
            rw [addRoots_roots_preserved] at hm
            exact addRoots_edges data _ hwf c p hm
        split
        · dsimp only
          exact mirrorInv_of_tables _ _ (loadComponent_tables _ _).2.2
            (loadComponent_tables _ _).2.1 hinv3
        · exact hinv3

/-- A well-formed message sequence preserves the mirror invariant. -/
theorem msgs_fold_inv (msgs : List TreeMsg) :
    ∀ s : CompState, wfMsgs msgs s → MirrorInv s →
      MirrorInv (applyMsgs msgs s) := by
  induction msgs with
  | nil => intro s _ hinv; exact hinv
  | cons msg rest ih =>
    intro s hwf hinv
    exact ih _ hwf.2 (msg_step_inv msg s hwf.1 hinv)

theorem initState_inv : MirrorInv initState := by
  constructor
  · exact List.nodup_nil
  · intro c p h
    exact absurd (h : (c, p) ∈ ([] : List (String × String)))
      (List.not_mem_nil _)

/-- C8 (amended): after any well-formed sequence of tree-data merges
starting from the initial state (root replacements with globally unique
ids keyed by an unknown instance id, and known-target refreshes whose
restored items have unique ids and introduce below themselves only ids
that are new to the mounted forest or lie in the replaced subtree), the
mounted forest has unique ids and, for every node C reachable from roots
whose immediate parent in the current tree is P, the parent table maps the
id of C to the id of P.  The reverse direction of the original claim fails:
a node currently at root position can retain a stale parent-table entry
from an earlier merge. -/
theorem C8_parent_table (msgs : List TreeMsg)
    (hwf : wfMsgs msgs initState) :
    (forestIds (applyMsgs msgs initState).rootInstances).Nodup
    ∧ ∀ c p : String,
        (c, p) ∈ forestPairs (applyMsgs msgs initState).rootInstances →
        mlookup (applyMsgs msgs initState).componentsParent c = some p := by
  have h := msgs_fold_inv msgs initState hwf initState_inv
  exact ⟨h.1, h.2⟩

/-- Witness for C8 (amended): a root replacement followed by a
known-target refresh of the child, after which both edges are correctly
registered. -/
theorem C8_parent_table_witness :
    (forestIds (applyMsgs
        [⟨"_root", some (TreePayload.ok
            [Node.mk "r1" true [Node.mk "a1" true [] ""] ""]), false⟩,
         ⟨"a1", some (TreePayload.ok
            [Node.mk "a1" true [Node.mk "b1" false [] ""] ""]), false⟩]
        initState).rootInstances).Nodup
    ∧ mlookup (applyMsgs
        [⟨"_root", some (TreePayload.ok
            [Node.mk "r1" true [Node.mk "a1" true [] ""] ""]), false⟩,
         ⟨"a1", some (TreePayload.ok
            [Node.mk "a1" true [Node.mk "b1" false [] ""] ""]), false⟩]
        initState).componentsParent "b1" = some "a1" := by
  have h := C8_parent_table
    [⟨"_root", some (TreePayload.ok
        [Node.mk "r1" true [Node.mk "a1" true [] ""] ""]), false⟩,
     ⟨"a1", some (TreePayload.ok
        [Node.mk "a1" true [Node.mk "b1" false [] ""] ""]), false⟩]
    (by
      refine ⟨?_, ?_, trivial⟩
      · show (forestIds [Node.mk "r1" true [Node.mk "a1" true [] ""] ""]).Nodup
        decide
      · refine ⟨rfl, by decide, ?_, trivial⟩
        decide)
  refine ⟨h.1, h.2 "b1" "a1" ?_⟩
  decide

/-- C8 counterexample: two root replacements in a row (the second
promoting a former child to root position) leave a stale parent-table
entry for a node that is currently a root, so the claimed equivalence
(parent entry exactly for tree children, roots having none) fails. -/
theorem C8_counterexample :
    (applyMsgs
        [⟨"_root", some (TreePayload.ok
            [Node.mk "r1" true [Node.mk "a1" false [] ""] ""]), false⟩,
         ⟨"_root", some (TreePayload.ok
            [Node.mk "a1" false [] ""]), false⟩]
        initState).rootInstances = [Node.mk "a1" false [] ""]
    ∧ forestPairs (applyMsgs
        [⟨"_root", some (TreePayload.ok
            [Node.mk "r1" true [Node.mk "a1" false [] ""] ""]), false⟩,
         ⟨"_root", some (TreePayload.ok
            [Node.mk "a1" false [] ""]), false⟩]
        initState).rootInstances = []
    ∧ mlookup (applyMsgs
        [⟨"_root", some (TreePayload.ok
            [Node.mk "r1" true [Node.mk "a1" false [] ""] ""]), false⟩,
         ⟨"_root", some (TreePayload.ok
            [Node.mk "a1" false [] ""]), false⟩]
        initState).componentsParent "a1" = some "r1" :=
  ⟨rfl, rfl, rfl⟩

end VueDT
